import Mathlib

/-! Verification development for the discovery and transport layer of the
Test-Equipment repository.  The definitions below are a shallow embedding of
src/MDNS.py (the mDNS packet codec and the query/collect loop) and of
src/instrument/SCPI.py (URI parsing and the broadcast discovery loop).
Python byte strings become lists of naturals below 256, Python text strings
become lists of Unicode code points, fallible code returns an explicit
result type, and the unbounded decoding loop is driven by explicit fuel so
that divergence is observable. -/

/-- Python byte strings, modelled as lists of naturals below 256. -/
abbrev Bytes : Type := List Nat

/-- Python text strings, modelled as lists of Unicode code points. -/
abbrev Str : Type := List Nat

/-- The Python exceptions the embedded code can raise. -/
inductive PyErr : Type
  | structError
  | indexError
  | unicodeDecodeError
  | valueError
  | exception
  deriving DecidableEq

/-- Outcome of running a piece of embedded Python code: `none` models a run
that does not terminate within the available fuel, `some (Except.error e)`
models an uncaught exception `e`, and `some (Except.ok a)` a normal return. -/
def Py (α : Type) : Type := Option (Except PyErr α)

instance exceptDecEq {ε α : Type} [DecidableEq ε] [DecidableEq α] :
    DecidableEq (Except ε α) := fun x y =>
  match x, y with
  | Except.error a, Except.error b =>
    if h : a = b then isTrue (by rw [h]) else isFalse (by intro hc; cases hc; exact h rfl)
  | Except.ok a, Except.ok b =>
    if h : a = b then isTrue (by rw [h]) else isFalse (by intro hc; cases hc; exact h rfl)
  | Except.error _, Except.ok _ => isFalse (by intro hc; cases hc)
  | Except.ok _, Except.error _ => isFalse (by intro hc; cases hc)

instance (α : Type) [DecidableEq α] : DecidableEq (Py α) :=
  inferInstanceAs (DecidableEq (Option (Except PyErr α)))

/-- Sequencing of embedded Python code: divergence and exceptions propagate. -/
def pyBind {α β : Type} : Py α → (α → Py β) → Py β
  | none, _ => none
  | some (Except.error e), _ => some (Except.error e)
  | some (Except.ok a), f => f a

instance : Monad Py where
  pure a := some (Except.ok a)
  bind := pyBind

/-- Raising a Python exception. -/
def pyThrow {α : Type} (e : PyErr) : Py α := some (Except.error e)

/-- Marker for a run that exhausts its fuel (a diverging loop). -/
def pyDiverge {α : Type} : Py α := none

/-- Big-endian 16-bit read, `int.from_bytes` style, used to model
`struct.unpack_from` fields after the bounds check has passed. -/
def readU16 (b : Bytes) (i : Nat) : Nat := 256 * b.getD i 0 + b.getD (i + 1) 0

/-- Big-endian 32-bit read. -/
def readU32 (b : Bytes) (i : Nat) : Nat :=
  16777216 * b.getD i 0 + 65536 * b.getD (i + 1) 0 + 256 * b.getD (i + 2) 0 + b.getD (i + 3) 0

/-- Big-endian 16-bit write, modelling one `!H` field of `struct.pack`.
Callers check the value is below 65536 first, as `struct.pack` raises there. -/
def u16be (n : Nat) : Bytes := [n / 256, n % 256]

/-- Python slice `b[i:j]` for nonnegative indices: never raises, clamps. -/
def pySlice (b : Bytes) (i j : Nat) : Bytes := (b.drop i).take (j - i)

/-- Python indexing `b[i]` for a nonnegative index: raises IndexError when
the index is out of range. -/
def pyIndex (b : Bytes) (i : Nat) : Py Nat :=
  match b.get? i with
  | some v => pure v
  | none => pyThrow PyErr.indexError

/-- Python `s.split(sep)` for a one-character separator: always returns a
nonempty list of pieces, with empty pieces around adjacent separators. -/
def pySplit (sep : Nat) : List Nat → List (List Nat)
  | [] => [[]]
  | c :: cs =>
    if c = sep then [] :: pySplit sep cs
    else
      match pySplit sep cs with
      | [] => [[c]]
      | p :: ps => (c :: p) :: ps

/-- UTF-8 encoding of one Unicode scalar value, as `str.encode` produces. -/
def utf8EncodeChar (c : Nat) : Bytes :=
  if c < 0x80 then [c]
  else if c < 0x800 then [0xC0 + c / 64, 0x80 + c % 64]
  else if c < 0x10000 then [0xE0 + c / 4096, 0x80 + c / 64 % 64, 0x80 + c % 64]
  else [0xF0 + c / 262144, 0x80 + c / 4096 % 64, 0x80 + c / 64 % 64, 0x80 + c % 64]

/-- Python `s.encode()`: UTF-8 encoding of a text string. -/
def utf8Encode (s : Str) : Bytes := (s.map utf8EncodeChar).flatten

/-- Decoding of one multi-byte UTF-8 sequence with leading byte `b`: checks
the continuation bytes exactly as the strict CPython decoder does (rejecting
truncated sequences, bad continuation bytes, overlong forms, surrogates and
code points beyond 0x10FFFF) and returns the code point and the remaining
bytes, or `none` on a decode error. -/
def utf8MultiByte (b : Nat) (rest : Bytes) : Option (Nat × Bytes) :=
  if b < 0xC2 then none
  else if b < 0xE0 then
    match rest with
    | c1 :: rest2 =>
      if 0x80 ≤ c1 ∧ c1 < 0xC0 then some ((b - 0xC0) * 64 + (c1 - 0x80), rest2)
      else none
    | [] => none
  else if b < 0xF0 then
    match rest with
    | c1 :: c2 :: rest3 =>
      if (if b = 0xE0 then 0xA0 ≤ c1 else 0x80 ≤ c1) ∧
          (if b = 0xED then c1 < 0xA0 else c1 < 0xC0) ∧ 0x80 ≤ c2 ∧ c2 < 0xC0 then
        some ((b - 0xE0) * 4096 + (c1 - 0x80) * 64 + (c2 - 0x80), rest3)
      else none
    | _ => none
  else if b < 0xF5 then
    match rest with
    | c1 :: c2 :: c3 :: rest4 =>
      if (if b = 0xF0 then 0x90 ≤ c1 else 0x80 ≤ c1) ∧
          (if b = 0xF4 then c1 < 0x90 else c1 < 0xC0) ∧
          0x80 ≤ c2 ∧ c2 < 0xC0 ∧ 0x80 ≤ c3 ∧ c3 < 0xC0 then
        some ((b - 0xF0) * 262144 + (c1 - 0x80) * 4096 + (c2 - 0x80) * 64 + (c3 - 0x80), rest4)
      else none
    | _ => none
  else none

/-- Fuel-driven strict UTF-8 decoder; every step consumes at least one byte,
so fuel equal to the byte count always suffices. -/
def utf8DecodeF : Nat → Bytes → Option Str
  | _, [] => some []
  | 0, _ :: _ => none
  | fuel + 1, b :: rest =>
    if b < 0x80 then (utf8DecodeF fuel rest).map (fun s => b :: s)
    else
      match utf8MultiByte b rest with
      | some p => (utf8DecodeF fuel p.2).map (fun s => p.1 :: s)
      | none => none

/-- Strict UTF-8 decoding as Python `bytes.decode()` performs it.
`none` models UnicodeDecodeError. -/
def utf8Decode (bs : Bytes) : Option Str := utf8DecodeF bs.length bs

/-- Decimal digits of a natural number, fuel-driven so it computes by rfl. -/
def decDigits : Nat → Nat → Str
  | 0, _ => []
  | fuel + 1, n => if n < 10 then [48 + n] else decDigits fuel (n / 10) ++ [48 + n % 10]

/-- Python `str(n)` for a natural number. -/
def natToDecStr (n : Nat) : Str := decDigits (n + 1) n

/-- One hexadecimal digit as CPython prints it (lowercase). -/
def reprHexDigit (d : Nat) : Nat := if d < 10 then 48 + d else 87 + d

/-- Escaping of one byte inside the CPython repr of a bytes object, where
`q` is the quote character chosen for the whole literal. -/
def pyBytesReprEsc (q b : Nat) : List Nat :=
  if b = 92 then [92, 92]
  else if b = q then [92, q]
  else if b = 9 then [92, 116]
  else if b = 10 then [92, 110]
  else if b = 13 then [92, 114]
  else if 32 ≤ b ∧ b < 127 then [b]
  else [92, 120, reprHexDigit (b / 16), reprHexDigit (b % 16)]

/-- Python `str(bs)` for a bytes object: the CPython repr, using double
quotes only when the bytes contain a single quote but no double quote. -/
def pyBytesRepr (bs : Bytes) : Str :=
  let q : Nat := if 39 ∈ bs ∧ ¬ 34 ∈ bs then 34 else 39
  98 :: q :: (bs.map (pyBytesReprEsc q)).flatten ++ [q]

/-! Constants of src/MDNS.py. -/

def RECORD_A : Nat := 0x0001

def RECORD_TXT : Nat := 0x0010

def RECORD_PTR : Nat := 0x000C

def RECORD_SRV : Nat := 0x0021

def FLAG_RESPONSE : Nat := 0x8000

def FLAG_AUTHORITIVE : Nat := 0x0400

def CLASS_IN : Nat := 0x0001

def CLASS_UNICAST_REQ : Nat := 0x8000

/-- The wildcard name accepted by `extract_mdns_answer`. -/
def strStar : Str := [42]

/-- Helper for `encode_name`: encodes each label of the split name as a
length byte followed by the UTF-8 bytes of the label.  The length byte is
`struct.pack` of the CHARACTER count of the label, which raises above 255. -/
def encodeLabels : List Str → Py Bytes
  | [] => pure []
  | l :: ls =>
    if l.length ≤ 255 then
      pyBind (encodeLabels ls) (fun rest => pure ((l.length :: utf8Encode l) ++ rest))
    else pyThrow PyErr.structError

/-- MDNS.py `encode_name`: splits on the dot character, emits one
length-prefixed label per piece, and terminates with a zero byte. -/
def encode_name (name : Str) : Py Bytes :=
  pyBind (encodeLabels (pySplit 46 name)) (fun bs => pure (bs ++ [0]))

/-- The while loop of MDNS.py `decode_name`, with explicit fuel, the label
accumulator, the jumped flag and the remembered post-pointer offset. -/
def decode_name_loop (buffer : Bytes) : Nat → Nat → List Str → Bool → Nat → Py (Str × Nat)
  | 0, _, _, _, _ => pyDiverge
  | fuel + 1, offset, labels, jumped, endOff =>
    pyBind (pyIndex buffer offset) (fun length =>
      let offset1 := offset + 1
      if length = 0 then
        pure (List.intercalate [46] labels, if jumped then endOff else offset1)
      else if length &&& 0xC0 = 0xC0 then
        pyBind (pyIndex buffer offset1) (fun b2 =>
          let endOff1 := if jumped then endOff else offset1 + 1
          decode_name_loop buffer fuel (((length &&& 0x3F) <<< 8) ||| b2) labels true endOff1)
      else
        match utf8Decode (pySlice buffer offset1 (offset1 + length)) with
        | some s => decode_name_loop buffer fuel (offset1 + length) (labels ++ [s]) jumped endOff
        | none => pyThrow PyErr.unicodeDecodeError)

/-- MDNS.py `decode_name`: returns the dotted name and the offset after the
name as seen at the call site. -/
def decode_name (fuel : Nat) (buffer : Bytes) (offset : Nat) : Py (Str × Nat) :=
  decode_name_loop buffer fuel offset [] false 0

/-- MDNS.py `encode_question`: encoded name, then type and class fields. -/
def encode_question (name : Str) (record_type : Nat) : Py Bytes :=
  pyBind (encode_name name) (fun nb =>
    if record_type < 65536 then
      pure (nb ++ u16be record_type ++ u16be (CLASS_IN ||| CLASS_UNICAST_REQ))
    else pyThrow PyErr.structError)

/-- The question-encoding loop of MDNS.py `encode_mdns`. -/
def encodeQuestions : List (Str × Nat) → Py Bytes
  | [] => pure []
  | (n, t) :: qs =>
    pyBind (encode_question n t)
      (fun qb => pyBind (encodeQuestions qs) (fun rest => pure (qb ++ rest)))

/-- MDNS.py `encode_mdns`: the 12-byte zeroed header with the question
count, followed by the encoded questions. -/
def encode_mdns (questions : List (Str × Nat)) : Py Bytes :=
  if questions.length < 65536 then
    pyBind (encodeQuestions questions) (fun body =>
      pure (u16be 0 ++ u16be 0 ++ u16be questions.length ++
        u16be 0 ++ u16be 0 ++ u16be 0 ++ body))
  else pyThrow PyErr.structError

/-- `struct.unpack_from` with format !6H at offset 0: bounds check then six
big-endian 16-bit reads. -/
def unpack6H (packet : Bytes) : Py (Nat × Nat × Nat × Nat × Nat × Nat) :=
  if 12 ≤ packet.length then
    pure (readU16 packet 0, readU16 packet 2, readU16 packet 4,
      readU16 packet 6, readU16 packet 8, readU16 packet 10)
  else pyThrow PyErr.structError

/-- `struct.unpack_from` with format !HHIH at the given offset. -/
def unpackHHIH (packet : Bytes) (offset : Nat) : Py (Nat × Nat × Nat × Nat) :=
  if offset + 10 ≤ packet.length then
    pure (readU16 packet offset, readU16 packet (offset + 2),
      readU32 packet (offset + 4), readU16 packet (offset + 8))
  else pyThrow PyErr.structError

/-- One decoded answer header: name, record type, and the position and
length of the deferred data, exactly what the lazy decoder closure of
MDNS.py `decode_answer` captures. -/
structure AnswerRec where
  name : Str
  rtype : Nat
  doff : Nat
  dlen : Nat
  deriving DecidableEq

/-- MDNS.py `decode_answer`: a name, then the fixed !HHIH fields; returns
the answer record and the offset past the answer data. -/
def decode_answer (fuel : Nat) (packet : Bytes) (offset : Nat) : Py (AnswerRec × Nat) :=
  pyBind (decode_name fuel packet offset) (fun p =>
    pyBind (unpackHHIH packet p.2) (fun q =>
      pure (⟨p.1, q.1, p.2 + 10, q.2.2.2⟩, p.2 + 10 + q.2.2.2)))

/-- MDNS.py `decode_answer_data`: dispatch on the record type. -/
def decode_answer_data (fuel : Nat) (packet : Bytes) (offset len rtype : Nat) : Py Str :=
  if rtype = RECORD_A then
    pure (List.intercalate [46] ((pySlice packet offset (offset + len)).map natToDecStr))
  else if rtype = RECORD_PTR then
    pyBind (decode_name fuel packet offset) (fun p => pure p.1)
  else if rtype = RECORD_SRV then
    pure (pyBytesRepr (pySlice packet offset (offset + len)))
  else
    match utf8Decode (pySlice packet offset (offset + len)) with
    | some s => pure s
    | none => pyThrow PyErr.unicodeDecodeError

/-- The answer-walking loop of MDNS.py `extract_mdns_answer`: up to the
answer count, stopping at the first name/type match and only then invoking
the data decoder. -/
def extractGo (fuel : Nat) (packet : Bytes) (name : Str) (rtype : Nat) :
    Nat → Nat → Py (Option Str)
  | 0, _ => pure none
  | k + 1, offset =>
    pyBind (decode_answer fuel packet offset) (fun r =>
      if r.1.rtype = rtype ∧ (name = strStar ∨ r.1.name = name) then
        pyBind (decode_answer_data fuel packet r.1.doff r.1.dlen r.1.rtype)
          (fun s => pure (some s))
      else extractGo fuel packet name rtype k r.2)

/-- The try/except of `extract_mdns_answer`: only struct.error is caught
and turned into the None result; every other exception propagates. -/
def catchStructErr (x : Py (Option Str)) : Py (Option Str) :=
  match x with
  | some (Except.error PyErr.structError) => pure none
  | other => other

/-- MDNS.py `extract_mdns_answer`: header check, answer walk, narrow
exception handler. -/
def extract_mdns_answer (fuel : Nat) (packet : Bytes) (name : Str) (rtype : Nat) :
    Py (Option Str) :=
  catchStructErr
    (pyBind (unpack6H packet) (fun h =>
      if h.2.2.1 ≠ 0 ∨ h.2.1 &&& FLAG_RESPONSE = 0 then pure none
      else extractGo fuel packet name rtype h.2.2.2.1 12))

/-! Spec-side reformulations used to state refinement theorems about the
codec.  These are written from the words of the specification and compared
with the source-shaped functions above. -/

/-- Eager walk over the answer section: decodes the headers of the given
number of answers in sequence, collecting them into a list. -/
def answerList (fuel : Nat) (packet : Bytes) : Nat → Nat → Py (List AnswerRec)
  | 0, _ => pure []
  | k + 1, offset =>
    pyBind (decode_answer fuel packet offset) (fun r =>
      pyBind (answerList fuel packet k r.2) (fun rest => pure (r.1 :: rest)))

/-- The name/type filter of the specification: the record type must equal
the requested type and the name must equal the requested name unless the
request used the wildcard name. -/
def answerMatches (name : Str) (rtype : Nat) (a : AnswerRec) : Bool :=
  decide (a.rtype = rtype ∧ (name = strStar ∨ a.name = name))

/-- Wire bytes of a sequence of raw labels: one length byte and the label
bytes for each.  Used to describe a well-formed uncompressed name region. -/
def labelsBytes (ls : List Str) : Bytes := (ls.map (fun l => l.length :: l)).flatten

/-- The name encoding described by the specification, as a pure function:
length-prefixed labels of the dot-split name followed by a zero byte. -/
def encodeNamePure (name : Str) : Bytes :=
  ((pySplit 46 name).map (fun l => l.length :: utf8Encode l)).flatten ++ [0]

/-- Walks forward through length-prefixed labels from the given offset and
reports whether a compression pointer byte is reached before the name ends
or runs off the buffer. -/
def ptrFreeWalk (buffer : Bytes) (offset : Nat) : Bool :=
  if h : offset < buffer.length then
    let L := buffer.getD offset 0
    if L = 0 then true
    else if L &&& 0xC0 = 0xC0 then false
    else ptrFreeWalk buffer (offset + 1 + L)
  else true
termination_by buffer.length - offset
decreasing_by omega

/-- Divergence of the name decoder from a given start: no amount of fuel
makes the loop return. -/
def decodeDiverges (buffer : Bytes) (offset : Nat) : Prop :=
  ∀ fuel : Nat, decode_name fuel buffer offset = pyDiverge

/-- The invariant stated by the specification for DNSName: every
compression pointer in the buffer encodes a target offset strictly less
than the position of the pointer itself. -/
def ptrTargetsBelow (buffer : Bytes) : Prop :=
  ∀ p : Nat, p < buffer.length → buffer.getD p 0 &&& 0xC0 = 0xC0 →
    ((buffer.getD p 0 &&& 0x3F) <<< 8) ||| buffer.getD (p + 1) 0 < p

instance (buffer : Bytes) : Decidable (ptrTargetsBelow buffer) := by
  unfold ptrTargetsBelow
  infer_instance

/-! Model of src/instrument/SCPI.py.  Opening sockets and serial ports is
environment interaction; a constructed backend is modelled as a record of
the arguments its constructor received. -/

/-- A constructed transport backend: SerialSCPI or SocketSCPI with the
arguments given to its constructor. -/
inductive SCPIObj : Type
  | serialSCPI (path : Str) (baud : Int)
  | socketSCPI (address : Str) (port : Int) (is_tcp : Bool)
  deriving DecidableEq

/-- An argument passed to `from_uri`: either a text string or an arbitrary
non-string object (an already constructed backend, or anything else). -/
inductive PyObj : Type
  | str (s : Str)
  | scpi (b : SCPIObj)
  | other (tag : Nat)
  deriving DecidableEq

/-- Value of a nonempty all-digit string read as a decimal number. -/
def digitsVal (s : Str) : Int :=
  s.foldl (fun acc c => acc * 10 + ((c : Int) - 48)) 0

/-- Python `int(s)` restricted to the grammar exercised here: an optional
minus sign followed by decimal digits; anything else raises ValueError. -/
def pyInt (s : Str) : Py Int :=
  if s ≠ [] ∧ s.all (fun c => 48 ≤ c ∧ c ≤ 57) then pure (digitsVal s)
  else
    match s with
    | 45 :: rest =>
      if rest ≠ [] ∧ rest.all (fun c => 48 ≤ c ∧ c ≤ 57) then pure (-(digitsVal rest))
      else pyThrow PyErr.valueError
    | _ => pyThrow PyErr.valueError

/-- Python `address.removeprefix("//")`. -/
def stripSlashes (address : Str) : Str :=
  match address with
  | 47 :: 47 :: rest => rest
  | other => other

/-- Truthiness of the optional third URI component (`if args:`). -/
def argsTruthy : Option Str → Bool
  | none => false
  | some [] => false
  | some (_ :: _) => true

def strTty : Str := [116, 116, 121]

def strTcp : Str := [116, 99, 112]

def strUdp : Str := [117, 100, 112]

def strIp : Str := [105, 112]

/-- The string branch of SCPI.py `from_uri`: the URI is split on colons,
the scheme selects the backend, and an unrecognised scheme raises a plain
Exception.  Indexing an absent component raises IndexError as
`components[1]` does. -/
def from_uri_str (s : Str) (baud : Int) (port : Int) (is_tcp : Bool) : Py PyObj :=
  match pySplit 58 s with
  | [] => pyThrow PyErr.indexError
  | scheme :: rest =>
    match rest with
    | [] => pyThrow PyErr.indexError
    | address :: rest2 =>
      let args : Option Str := match rest2 with | [] => none | a :: _ => some a
      if scheme = strTty then
        pyBind (if argsTruthy args then pyInt (args.getD []) else pure baud)
          (fun baud2 => pure (PyObj.scpi (SCPIObj.serialSCPI address baud2)))
      else if scheme = strUdp ∨ scheme = strTcp ∨ scheme = strIp then
        let address2 := stripSlashes address
        pyBind (if argsTruthy args then pyInt (args.getD []) else pure port)
          (fun port2 =>
            let is_tcp2 := if scheme = strIp then is_tcp else decide (scheme = strTcp)
            pure (PyObj.scpi (SCPIObj.socketSCPI address2 port2 is_tcp2)))
      else pyThrow PyErr.exception

/-- SCPI.py `from_uri`: non-strings pass through unchanged (the object is
assumed to already be a transport); strings are parsed by scheme. -/
def from_uri (uri : PyObj) (baud : Int) (port : Int) (is_tcp : Bool) : Py PyObj :=
  match uri with
  | PyObj.str s => from_uri_str s baud port is_tcp
  | other => pure other

/-! Model of the timed receive loops.  Wall-clock time is modelled with
exact rational numbers.  The environment is a queue of datagrams, each
tagged with its absolute arrival time; a receive with timeout u issued at
time t delivers the head datagram if it arrives by t + u (moving the clock
to the arrival time, or leaving it unchanged if the datagram is already
queued), and otherwise raises the socket timeout at time t + u. -/

/-- SCPI.py `broadcast_search` after the single send: a generator that
receives with a FIXED per-receive timeout until a receive times out.
Returns the collected (payload, sender) pairs and the time at which the
loop finished. -/
def broadcastGo (timeout : ℚ) : List (ℚ × Bytes × Nat) → ℚ → List (Bytes × Nat) →
    List (Bytes × Nat) × ℚ
  | [], now, acc => (acc, now + timeout)
  | (ta, d, a) :: rest, now, acc =>
    if ta ≤ now + timeout then broadcastGo timeout rest (max now ta) (acc ++ [(d, a)])
    else (acc, now + timeout)

/-- SCPI.py `broadcast_search` on an arrival schedule starting at `start`.
The payload and port only affect the single outgoing send, which is
environment interaction. -/
def broadcast_search (_payload : Bytes) (_port : Nat) (timeout : ℚ)
    (events : List (ℚ × Bytes × Nat)) (start : ℚ) : List (Bytes × Nat) × ℚ :=
  broadcastGo timeout events start []

/-- The receive loop of MDNS.py `MDNS._listen_for`: the per-receive socket
timeout is recomputed every iteration as the remaining budget, results are
accumulated while truthy, and the loop stops on deadline, on the result
limit, or on a receive that times out. -/
def listenGo (name : Str) (rtype : Nat) (fuel : Nat) (timeout start : ℚ) (limit : Nat) :
    List (ℚ × Bytes) → ℚ → List Str → Py (List Str × ℚ)
  | [], now, results =>
    let remaining := timeout - (now - start)
    if remaining ≤ 0 ∨ ¬ results.length < limit then pure (results, now)
    else pure (results, now + remaining)
  | (ta, data) :: rest, now, results =>
    let remaining := timeout - (now - start)
    if remaining ≤ 0 ∨ ¬ results.length < limit then pure (results, now)
    else if ta ≤ now + remaining then
      pyBind (extract_mdns_answer fuel data name rtype) (fun r =>
        let results2 := match r with
          | some s => if s ≠ [] then results ++ [s] else results
          | none => results
        listenGo name rtype fuel timeout start limit rest (max now ta) results2)
    else pure (results, now + remaining)

/-- MDNS.py `MDNS._listen_for` on an arrival schedule: starts with an empty
result list at time `start`.  This is also the collect loop of
`MDNS.query`, which only sends the query first. -/
def listen_for (name : Str) (rtype : Nat) (fuel : Nat) (timeout : ℚ) (limit : Nat)
    (events : List (ℚ × Bytes)) (start : ℚ) : Py (List Str × ℚ) :=
  listenGo name rtype fuel timeout start limit events start []

/-- C2 counterexample input: the one-character name with code point 233.
Its single label encodes to the two bytes 195 169, has no dot byte, yet the
round trip raises UnicodeDecodeError because the length byte written by the
encoder is the character count, not the byte count. -/
def nameNonAscii : Str := [233]

/-- C2 witness input: the name foo.local. -/
def exFooLocal : Str := [102, 111, 111, 46, 108, 111, 99, 97, 108]

/-- C1 failing input: a 12-byte header with the response flag set,
question count 0 and answer count 1, followed by an answer truncated in
the middle of its name: the label claims 3 bytes but only 2 are present. -/
def packetTruncatedMidAnswer : Bytes := [0, 0, 128, 0, 0, 0, 0, 1, 0, 0, 0, 0, 3, 100, 101]

/-- C3 witness packet: the name foo.local encoded at offset 0 and a
pointer-only name at offset 11 targeting offset 0. -/
def exPointerPacket : Bytes := [3, 102, 111, 111, 5, 108, 111, 99, 97, 108, 0, 192, 0]

/-- C4 witness packet: the concrete scenario of the specification, one
address answer for dev.local with data 192.168.1.10. -/
def exAnswerPacket : Bytes :=
  [0, 0, 128, 0, 0, 0, 0, 1, 0, 0, 0, 0,
   3, 100, 101, 118, 5, 108, 111, 99, 97, 108, 0,
   0, 1, 0, 1, 0, 0, 0, 0, 0, 4,
   192, 168, 1, 10]

/-- C4 witness name: dev.local. -/
def exDevLocal : Str := [100, 101, 118, 46, 108, 111, 99, 97, 108]

/-- C5 concrete question name: services dns-sd enumeration name. -/
def exServicesName : Str :=
  [95, 115, 101, 114, 118, 105, 99, 101, 115, 46, 95, 100, 110, 115, 45, 115, 100,
   46, 95, 117, 100, 112, 46, 108, 111, 99, 97, 108]

/-- C6 counterexample input: the URI vxi:host. -/
def exVxiUri : Str := [118, 120, 105, 58, 104, 111, 115, 116]

/-- C6 witness address: host. -/
def exHost : Str := [104, 111, 115, 116]

/-- C7 counterexample buffer: the label abc followed by a pointer back to
offset 0.  The only pointer sits at offset 4 and targets offset 0, so the
strictly-less invariant of the specification holds, yet decoding loops
through offsets 0 and 4 forever. -/
def exLoopBuffer : Bytes := [3, 97, 98, 99, 192, 0]

/-- C9 counterexample schedule: three datagrams arriving at times 1, 2 and
3 against a broadcast scan started at time 0 with timeout 1. -/
def exBroadcastEvents : List (ℚ × Bytes × Nat) := [(1, [], 0), (2, [], 0), (3, [], 0)]

@[simp] theorem pyBind_pure {α β : Type} (a : α) (f : α → Py β) :
    pyBind (pure a) f = f a := rfl

@[simp] theorem pyBind_throw {α β : Type} (e : PyErr) (f : α → Py β) :
    pyBind (pyThrow e) f = pyThrow e := rfl

@[simp] theorem pyBind_diverge {α β : Type} (f : α → Py β) :
    pyBind pyDiverge f = pyDiverge := rfl

@[simp] theorem bind_eq_pyBind {α β : Type} (x : Py α) (f : α → Py β) :
    x >>= f = pyBind x f := rfl

theorem py_pure_def {α : Type} (a : α) : (pure a : Py α) = some (Except.ok a) := rfl

theorem pyBind_eq_pure_iff {α β : Type} (x : Py α) (f : α → Py β) (b : β) :
    pyBind x f = pure b ↔ ∃ a, x = pure a ∧ f a = pure b := by
  cases x with
  | none =>
    constructor
    · intro h; exact Option.noConfusion h
    · rintro ⟨a, ha, -⟩; exact Option.noConfusion ha
  | some v =>
    cases v with
    | error e =>
      constructor
      · intro h; exact Except.noConfusion (Option.some.inj h)
      · rintro ⟨a, ha, -⟩; exact Except.noConfusion (Option.some.inj ha)
    | ok a =>
      constructor
      · intro h; exact ⟨a, rfl, h⟩
      · rintro ⟨a2, ha, hf⟩
        rw [Except.ok.inj (Option.some.inj ha)]; exact hf

theorem pure_inj {α : Type} {a b : α} (h : (pure a : Py α) = pure b) : a = b :=
  Except.ok.inj (Option.some.inj h)

/-! Basic lemmas about the helper functions. -/

theorem get?_append_cons (pre : List Nat) (x : Nat) (rest : List Nat) :
    (pre ++ x :: rest).get? pre.length = some x := by
  induction pre with
  | nil => rfl
  | cons a as ih => simpa [List.get?] using ih

theorem pyIndex_append_cons (pre : List Nat) (x : Nat) (rest : List Nat) :
    pyIndex (pre ++ x :: rest) pre.length = pure x := by
  unfold pyIndex
  rw [get?_append_cons]

theorem pySlice_exact (pre mid rest : List Nat) :
    pySlice (pre ++ mid ++ rest) pre.length (pre.length + mid.length) = mid := by
  unfold pySlice
  rw [List.append_assoc, List.drop_left, Nat.add_sub_cancel_left, List.take_left]

theorem pySplit_ne_nil (sep : Nat) (s : List Nat) : pySplit sep s ≠ [] := by
  induction s with
  | nil => simp [pySplit]
  | cons c cs ih =>
    by_cases h : c = sep
    · simp [pySplit, h]
    · simp only [pySplit, if_neg h]
      cases hsplit : pySplit sep cs with
      | nil => simp
      | cons p ps => simp

theorem pySplit_append (sep : Nat) (a b : List Nat) (h : sep ∉ a) :
    pySplit sep (a ++ sep :: b) = a :: pySplit sep b := by
  induction a with
  | nil => simp [pySplit]
  | cons c cs ih =>
    have hc : c ≠ sep := by
      intro e; exact h (by simp [e])
    have h2 : sep ∉ cs := fun m => h (List.mem_cons_of_mem _ m)
    simp only [List.cons_append, pySplit, if_neg hc, List.append_eq]
    rw [ih h2]

theorem pySplit_single (sep : Nat) (a : List Nat) (h : sep ∉ a) :
    pySplit sep a = [a] := by
  induction a with
  | nil => rfl
  | cons c cs ih =>
    have hc : c ≠ sep := by
      intro e; exact h (by simp [e])
    have h2 : sep ∉ cs := fun m => h (List.mem_cons_of_mem _ m)
    simp only [pySplit, if_neg hc, ih h2]

theorem intercalate_cons_of_ne_nil {α : Type} (s a : List α) (L : List (List α))
    (h : L ≠ []) :
    List.intercalate s (a :: L) = a ++ s ++ List.intercalate s L := by
  cases L with
  | nil => exact absurd rfl h
  | cons b t => simp [List.intercalate, List.intersperse]

theorem intercalate_pySplit (sep : Nat) (s : List Nat) :
    List.intercalate [sep] (pySplit sep s) = s := by
  induction s with
  | nil => simp [pySplit, List.intercalate]
  | cons c cs ih =>
    by_cases h : c = sep
    · subst h
      have hs : pySplit c (c :: cs) = [] :: pySplit c cs := by simp [pySplit]
      rw [hs, intercalate_cons_of_ne_nil _ _ _ (pySplit_ne_nil _ _), ih]
      simp
    · simp only [pySplit, if_neg h]
      cases hsplit : pySplit sep cs with
      | nil => exact absurd hsplit (pySplit_ne_nil sep cs)
      | cons p ps =>
        cases ps with
        | nil =>
          have hp : p = cs := by
            have := ih
            rw [hsplit] at this
            simpa [List.intercalate] using this
          simp [List.intercalate, hp]
        | cons p2 pt =>
          rw [intercalate_cons_of_ne_nil _ _ _ (by simp)]
          have ih2 : p ++ [sep] ++ List.intercalate [sep] (p2 :: pt) = cs := by
            have := ih
            rw [hsplit, intercalate_cons_of_ne_nil _ _ _ (by simp)] at this
            exact this
          rw [List.cons_append, List.cons_append, ih2]

theorem utf8Encode_ascii (l : Str) (h : ∀ c ∈ l, c < 128) : utf8Encode l = l := by
  induction l with
  | nil => rfl
  | cons c cs ih =>
    have hc : c < 128 := h c (by simp)
    have ih2 := ih (fun x hx => h x (by simp [hx]))
    simp only [utf8Encode, List.map_cons, List.flatten_cons, utf8EncodeChar, if_pos hc]
    rw [show (List.map utf8EncodeChar cs).flatten = utf8Encode cs from rfl, ih2]
    rfl

theorem utf8DecodeF_ascii (l : Str) :
    ∀ fuel : Nat, (∀ c ∈ l, c < 128) → l.length ≤ fuel → utf8DecodeF fuel l = some l := by
  induction l with
  | nil => intro fuel _ _; cases fuel <;> rfl
  | cons c cs ih =>
    intro fuel h hlen
    obtain ⟨f, rfl⟩ : ∃ f, fuel = f + 1 := ⟨fuel - 1, by simp at hlen; omega⟩
    have hc : c < 128 := h c (by simp)
    have ih2 := ih f (fun x hx => h x (by simp [hx])) (by simp at hlen; omega)
    simp only [utf8DecodeF, if_pos hc, ih2]
    rfl

theorem utf8Decode_ascii (l : Str) (h : ∀ c ∈ l, c < 128) : utf8Decode l = some l :=
  utf8DecodeF_ascii l l.length h le_rfl

theorem land192_eq_zero (n : Nat) (h : n < 64) : n &&& 192 = 0 := by
  have hall : ∀ m : Nat, m < 64 → m &&& 192 = 0 := by decide
  exact hall n h

theorem labelsBytes_cons (l : Str) (ls : List Str) :
    labelsBytes (l :: ls) = l.length :: (l ++ labelsBytes ls) := by
  simp [labelsBytes]

theorem labelsBytes_nil : labelsBytes [] = [] := rfl

/-- Central decoding lemma: starting at the first byte of a well-formed
region of length-prefixed ASCII labels followed by the zero end marker, the
decode loop returns the labels accumulated so far joined with dots, and the
offset after the zero byte unless a pointer was already followed. -/
theorem decode_loop_on_labels (ls : List Str) :
    ∀ (pre post : Bytes) (acc : List Str) (jumped : Bool) (endOff fuel : Nat),
    (∀ l ∈ ls, 1 ≤ l.length ∧ l.length ≤ 63 ∧ ∀ c ∈ l, c < 128) →
    ls.length < fuel →
    decode_name_loop (pre ++ labelsBytes ls ++ 0 :: post) fuel pre.length acc jumped endOff
      = pure (List.intercalate [46] (acc ++ ls),
          if jumped then endOff else pre.length + (labelsBytes ls).length + 1) := by
  induction ls with
  | nil =>
    intro pre post acc jumped endOff fuel _ hfuel
    obtain ⟨f, rfl⟩ : ∃ f, fuel = f + 1 := ⟨fuel - 1, by omega⟩
    have hb : pre ++ labelsBytes [] ++ 0 :: post = pre ++ 0 :: post := by
      rw [labelsBytes_nil, List.append_nil]
    rw [hb]
    simp only [decode_name_loop]
    rw [pyIndex_append_cons]
    simp [labelsBytes_nil]

  | cons l ls ih =>
    intro pre post acc jumped endOff fuel hls hfuel
    obtain ⟨f, rfl⟩ : ∃ f, fuel = f + 1 := ⟨fuel - 1, by omega⟩
    obtain ⟨hl1, hl63, hlascii⟩ := hls l (by simp)
    have hls2 : ∀ x ∈ ls, 1 ≤ x.length ∧ x.length ≤ 63 ∧ ∀ c ∈ x, c < 128 :=
      fun x hx => hls x (by simp [hx])
    have hfuel2 : ls.length < f := by simp at hfuel; omega
    have hbuf : pre ++ labelsBytes (l :: ls) ++ 0 :: post
        = pre ++ l.length :: (l ++ (labelsBytes ls ++ 0 :: post)) := by
      rw [labelsBytes_cons]; simp
    have hland : l.length &&& 0xC0 = 0 := land192_eq_zero _ (by omega)
    have hslice : pySlice (pre ++ l.length :: (l ++ (labelsBytes ls ++ 0 :: post)))
        (pre.length + 1) (pre.length + 1 + l.length) = l := by
      have h2 := pySlice_exact (pre ++ [l.length]) l (labelsBytes ls ++ 0 :: post)
      simpa using h2
    have hdec : utf8Decode (pySlice (pre ++ l.length :: (l ++ (labelsBytes ls ++ 0 :: post)))
        (pre.length + 1) (pre.length + 1 + l.length)) = some l := by
      rw [hslice]; exact utf8Decode_ascii l hlascii
    rw [hbuf]
    simp only [decode_name_loop, pyIndex_append_cons, pyBind_pure,
      if_neg (show ¬ l.length = 0 by omega),
      if_neg (show ¬ l.length &&& 0xC0 = 0xC0 by rw [hland]; omega), hdec]
    have happ : pre ++ l.length :: (l ++ (labelsBytes ls ++ 0 :: post))
        = (pre ++ l.length :: l) ++ labelsBytes ls ++ 0 :: post := by simp
    rw [happ]
    have hoff : pre.length + 1 + l.length = (pre ++ l.length :: l).length := by
      rw [List.length_append, List.length_cons]; omega
    rw [hoff]
    rw [ih (pre ++ l.length :: l) post (acc ++ [l]) jumped endOff f hls2 hfuel2]
    have hcomp : (if jumped then endOff
          else (pre ++ l.length :: l).length + (labelsBytes ls).length + 1)
        = if jumped then endOff else pre.length + (labelsBytes (l :: ls)).length + 1 := by
      cases jumped
      · simp [labelsBytes_cons]; omega
      · rfl
    rw [hcomp, show acc ++ [l] ++ ls = acc ++ l :: ls by simp]

/-- Encoding the split labels succeeds and produces length-prefixed UTF-8
label bytes whenever every label has at most 255 characters. -/
theorem encodeLabels_ok (ls : List Str) (h : ∀ l ∈ ls, l.length ≤ 255) :
    encodeLabels ls = pure ((ls.map (fun l => l.length :: utf8Encode l)).flatten) := by
  induction ls with
  | nil => rfl
  | cons l ls ih =>
    have hl : l.length ≤ 255 := h l (by simp)
    have ih2 := ih (fun x hx => h x (by simp [hx]))
    simp only [encodeLabels, if_pos hl, ih2, pyBind_pure, List.map_cons, List.flatten_cons]

/-- The source name encoder agrees with the pure spec-side encoder whenever
every label has at most 255 characters. -/
theorem encode_name_ok (name : Str) (h : ∀ l ∈ pySplit 46 name, l.length ≤ 255) :
    encode_name name = pure (encodeNamePure name) := by
  unfold encode_name encodeNamePure
  rw [encodeLabels_ok _ h]
  rfl

/-- For ASCII labels the encoded label bytes are the labels themselves. -/
theorem encodeNamePure_ascii (name : Str)
    (h : ∀ l ∈ pySplit 46 name, ∀ c ∈ l, c < 128) :
    encodeNamePure name = labelsBytes (pySplit 46 name) ++ [0] := by
  unfold encodeNamePure labelsBytes
  have hmap : (pySplit 46 name).map (fun l => l.length :: utf8Encode l)
      = (pySplit 46 name).map (fun l => l.length :: l) := by
    apply List.map_congr_left
    intro l hl
    rw [utf8Encode_ascii l (h l hl)]
  rw [hmap]

/-- C2: the claim as stated is false at the concrete name [233]: the label
is 2 bytes long with no dot byte, but decoding the encoding raises
UnicodeDecodeError instead of returning the name. -/
theorem C2_counterexample_nonascii_label :
    (pySplit 46 nameNonAscii = [nameNonAscii] ∧
      (utf8Encode nameNonAscii).length = 2 ∧ 46 ∉ utf8Encode nameNonAscii) ∧
    encode_name nameNonAscii = pure [1, 195, 169, 0] ∧
    decode_name 8 [1, 195, 169, 0] 0 = pyThrow PyErr.unicodeDecodeError := by
  decide

/-- C2 (amended): for every dotted name whose labels each have 1 to 63
characters, all ASCII (so label bytes and characters coincide), decoding
the question-prefix encoding of the name returns the name and the offset
just past the terminating zero byte. -/
theorem C2_decode_encode_roundtrip (name : Str)
    (h : ∀ l ∈ pySplit 46 name, 1 ≤ l.length ∧ l.length ≤ 63 ∧ ∀ c ∈ l, c < 128)
    (fuel : Nat) (hfuel : (pySplit 46 name).length < fuel) :
    ∃ encoded : Bytes, encode_name name = pure encoded ∧
      decode_name fuel encoded 0 = pure (name, encoded.length) := by
  have h255 : ∀ l ∈ pySplit 46 name, l.length ≤ 255 :=
    fun l hl => le_trans (h l hl).2.1 (by omega)
  have hascii : ∀ l ∈ pySplit 46 name, ∀ c ∈ l, c < 128 := fun l hl => (h l hl).2.2
  refine ⟨encodeNamePure name, encode_name_ok name h255, ?_⟩
  rw [encodeNamePure_ascii name hascii]
  have hd := decode_loop_on_labels (pySplit 46 name) [] [] [] false 0 fuel h hfuel
  unfold decode_name
  simp only [List.nil_append, List.length_nil] at hd
  have hb : labelsBytes (pySplit 46 name) ++ [0]
      = labelsBytes (pySplit 46 name) ++ 0 :: ([] : Bytes) := rfl
  rw [hb, hd]
  rw [intercalate_pySplit]
  simp

/-- C2 witness: the amended round trip at the concrete name foo.local. -/
theorem C2_roundtrip_witness :
    (∀ l ∈ pySplit 46 exFooLocal, 1 ≤ l.length ∧ l.length ≤ 63 ∧ ∀ c ∈ l, c < 128) ∧
    ∃ encoded : Bytes, encode_name exFooLocal = pure encoded ∧
      decode_name 10 encoded 0 = pure (exFooLocal, encoded.length) :=
  ⟨by decide, C2_decode_encode_roundtrip exFooLocal (by decide) 10 (by decide)⟩

/-- C1: on a packet truncated mid-answer, extract_mdns_answer does NOT
return the no-match result: reading the first answer name indexes past the
end of the buffer and the resulting IndexError is not caught (only
struct.error is), so the exception propagates to the receive loop. -/
theorem C1_extract_truncated_raises :
    extract_mdns_answer 16 packetTruncatedMidAnswer strStar RECORD_A
      = pyThrow PyErr.indexError := by
  decide

/-- C3: in a packet holding a well-formed uncompressed ASCII name region
(length-prefixed labels then a zero byte) starting at offset K =
pre.length, and a 2-byte compression pointer at offset P whose 14-bit
target is K, decoding at P yields the same dotted string as decoding at K
and returns offset P + 2 (the resume offset remembered at the first and
only pointer), while decoding at K returns the offset just past the zero
byte. -/
theorem C3_pointer_decodes_like_target (pre post : Bytes) (ls : List Str)
    (P b1 b2 fuel : Nat)
    (hls : ∀ l ∈ ls, 1 ≤ l.length ∧ l.length ≤ 63 ∧ ∀ c ∈ l, c < 128)
    (hb1 : (pre ++ labelsBytes ls ++ 0 :: post).get? P = some b1)
    (hptr : b1 &&& 0xC0 = 0xC0)
    (hb2 : (pre ++ labelsBytes ls ++ 0 :: post).get? (P + 1) = some b2)
    (htarget : ((b1 &&& 0x3F) <<< 8) ||| b2 = pre.length)
    (hfuel : ls.length + 1 < fuel) :
    decode_name fuel (pre ++ labelsBytes ls ++ 0 :: post) P
        = pure (List.intercalate [46] ls, P + 2) ∧
    decode_name fuel (pre ++ labelsBytes ls ++ 0 :: post) pre.length
        = pure (List.intercalate [46] ls, pre.length + (labelsBytes ls).length + 1) := by
  constructor
  · obtain ⟨f, rfl⟩ : ∃ f, fuel = f + 1 := ⟨fuel - 1, by omega⟩
    unfold decode_name
    simp only [decode_name_loop]
    have hidx1 : pyIndex (pre ++ labelsBytes ls ++ 0 :: post) P = pure b1 := by
      unfold pyIndex
      rw [hb1]
    have hidx2 : pyIndex (pre ++ labelsBytes ls ++ 0 :: post) (P + 1) = pure b2 := by
      unfold pyIndex
      rw [hb2]
    have hb1ne : ¬ b1 = 0 := by
      intro e; subst e; simp at hptr
    rw [hidx1]
    simp only [pyBind_pure, if_neg hb1ne, if_pos hptr]
    rw [hidx2]
    simp only [pyBind_pure, htarget, Bool.false_eq_true, if_false]
    have hd := decode_loop_on_labels ls pre post [] true (P + 1 + 1) f hls (by omega)
    rw [hd]
    simp
  · unfold decode_name
    have hd := decode_loop_on_labels ls pre post [] false 0 fuel hls (by omega)
    rw [hd]
    simp

/-- C3 witness: the theorem applied at the concrete packet. -/
theorem C3_pointer_witness :
    decode_name 10 exPointerPacket 11 = pure (exFooLocal, 13) ∧
    decode_name 10 exPointerPacket 0 = pure (exFooLocal, 11) := by
  have h := C3_pointer_decodes_like_target []
    [192, 0] [[102, 111, 111], [108, 111, 99, 97, 108]] 11 192 0 10
    (by decide) (by decide) (by decide) (by decide) (by decide) (by decide)
  exact ⟨by simpa using h.1, by simpa using h.2⟩

theorem pure_ne_throw {α : Type} (a : α) (e : PyErr) : (pure a : Py α) ≠ pyThrow e := by
  intro h
  exact Except.noConfusion (Option.some.inj h)

theorem diverge_ne_throw {α : Type} (e : PyErr) : (pyDiverge : Py α) ≠ pyThrow e := by
  intro h
  exact Option.noConfusion h

theorem throw_ne_throw {α : Type} (e e2 : PyErr) (h : e ≠ e2) :
    (pyThrow e : Py α) ≠ pyThrow e2 := by
  intro hc
  exact h (Except.error.inj (Option.some.inj hc))

theorem pyBind_ne_throw {α β : Type} (x : Py α) (f : α → Py β) (e : PyErr)
    (hx : x ≠ pyThrow e) (hf : ∀ a, f a ≠ pyThrow e) : pyBind x f ≠ pyThrow e := by
  cases x with
  | none => exact diverge_ne_throw e
  | some v =>
    cases v with
    | error e2 =>
      intro hc
      simp only [pyBind] at hc
      have he : e2 = e := Except.error.inj (Option.some.inj hc)
      exact hx (by rw [he]; rfl)
    | ok a => exact hf a

/-- The name decoding loop never raises struct.error. -/
theorem decode_name_loop_no_struct (buffer : Bytes) :
    ∀ (fuel offset : Nat) (acc : List Str) (j : Bool) (eo : Nat),
    decode_name_loop buffer fuel offset acc j eo ≠ pyThrow PyErr.structError := by
  intro fuel
  induction fuel with
  | zero => intro offset acc j eo; exact diverge_ne_throw _
  | succ f ih =>
    intro offset acc j eo
    simp only [decode_name_loop]
    apply pyBind_ne_throw
    · unfold pyIndex
      cases buffer.get? offset with
      | none => exact throw_ne_throw _ _ (by intro h; cases h)
      | some v => exact pure_ne_throw _ _
    · intro lengthByte
      by_cases h0 : lengthByte = 0
      · rw [if_pos h0]; exact pure_ne_throw _ _
      · rw [if_neg h0]
        by_cases hp : lengthByte &&& 0xC0 = 0xC0
        · rw [if_pos hp]
          apply pyBind_ne_throw
          · unfold pyIndex
            cases buffer.get? (offset + 1) with
            | none => exact throw_ne_throw _ _ (by intro h; cases h)
            | some v => exact pure_ne_throw _ _
          · intro b2; exact ih _ _ _ _
        · rw [if_neg hp]
          cases utf8Decode (pySlice buffer (offset + 1) (offset + 1 + lengthByte)) with
          | none => exact throw_ne_throw _ _ (by intro h; cases h)
          | some s => exact ih _ _ _ _

/-- The deferred data decoder never raises struct.error. -/
theorem decode_answer_data_no_struct (fuel : Nat) (packet : Bytes)
    (offset len rtype : Nat) :
    decode_answer_data fuel packet offset len rtype ≠ pyThrow PyErr.structError := by
  unfold decode_answer_data
  by_cases hA : rtype = RECORD_A
  · rw [if_pos hA]; exact pure_ne_throw _ _
  · rw [if_neg hA]
    by_cases hP : rtype = RECORD_PTR
    · rw [if_pos hP]
      apply pyBind_ne_throw
      · exact decode_name_loop_no_struct packet fuel offset [] false 0
      · intro p; exact pure_ne_throw _ _
    · rw [if_neg hP]
      by_cases hS : rtype = RECORD_SRV
      · rw [if_pos hS]; exact pure_ne_throw _ _
      · rw [if_neg hS]
        cases utf8Decode (pySlice packet offset (offset + len)) with
        | none => exact throw_ne_throw _ _ (by intro h; cases h)
        | some s => exact pure_ne_throw _ _

theorem catchStructErr_of_no_struct (x : Py (Option Str))
    (h : x ≠ pyThrow PyErr.structError) : catchStructErr x = x := by
  unfold catchStructErr
  cases x with
  | none => rfl
  | some v =>
    cases v with
    | ok a => rfl
    | error e =>
      cases e with
      | structError => exact absurd rfl h
      | indexError => rfl
      | unicodeDecodeError => rfl
      | valueError => rfl
      | exception => rfl

/-- The lazy answer walk of the source agrees, on a fully decodable answer
section, with first decoding all answer headers and then taking the first
match. -/
theorem extractGo_answerList (fuel : Nat) (packet : Bytes) (name : Str) (rtype : Nat) :
    ∀ (k offset : Nat) (L : List AnswerRec),
    answerList fuel packet k offset = pure L →
    extractGo fuel packet name rtype k offset
      = match L.find? (answerMatches name rtype) with
        | some a => pyBind (decode_answer_data fuel packet a.doff a.dlen a.rtype)
            (fun s => pure (some s))
        | none => pure none := by
  intro k
  induction k with
  | zero =>
    intro offset L hL
    have hLnil : [] = L := pure_inj hL
    subst hLnil
    rfl
  | succ k ih =>
    intro offset L hL
    simp only [answerList] at hL
    rw [pyBind_eq_pure_iff] at hL
    obtain ⟨r, hr, hL2⟩ := hL
    rw [pyBind_eq_pure_iff] at hL2
    obtain ⟨rest, hrest, hcons⟩ := hL2
    have hLeq : r.1 :: rest = L := pure_inj hcons
    subst hLeq
    simp only [extractGo]
    rw [hr]
    simp only [pyBind_pure]
    by_cases hmatch : r.1.rtype = rtype ∧ (name = strStar ∨ r.1.name = name)
    · rw [if_pos hmatch]
      have hb : answerMatches name rtype r.1 = true := by
        simp [answerMatches, hmatch]
      rw [List.find?_cons_of_pos _ hb]
    · rw [if_neg hmatch]
      have hb : ¬ answerMatches name rtype r.1 = true := by
        unfold answerMatches
        rw [decide_eq_true_eq]
        exact hmatch
      rw [List.find?_cons_of_neg _ hb]
      exact ih r.2 rest hrest

/-- C4: (a) on any packet with at least a full header whose question count
is nonzero or whose response flag is unset, extract_mdns_answer returns the
no-match result regardless of the answer content; (b) otherwise, when the
answer-count answers all decode, it returns the decoded data of the first
answer whose type equals the requested type and whose name equals the
requested name or the requested name is the wildcard. -/
theorem C4_extract_gate_and_first_match :
    (∀ (packet : Bytes) (name : Str) (rtype fuel : Nat),
      12 ≤ packet.length →
      (readU16 packet 4 ≠ 0 ∨ readU16 packet 2 &&& FLAG_RESPONSE = 0) →
      extract_mdns_answer fuel packet name rtype = pure none)
    ∧ (∀ (packet : Bytes) (name : Str) (rtype fuel : Nat) (L : List AnswerRec),
      12 ≤ packet.length →
      readU16 packet 4 = 0 → readU16 packet 2 &&& FLAG_RESPONSE ≠ 0 →
      answerList fuel packet (readU16 packet 6) 12 = pure L →
      extract_mdns_answer fuel packet name rtype
        = match L.find? (answerMatches name rtype) with
          | some a => pyBind (decode_answer_data fuel packet a.doff a.dlen a.rtype)
              (fun s => pure (some s))
          | none => pure none) := by
  constructor
  · intro packet name rtype fuel h12 hgate
    unfold extract_mdns_answer
    have hu : unpack6H packet = pure (readU16 packet 0, readU16 packet 2, readU16 packet 4,
        readU16 packet 6, readU16 packet 8, readU16 packet 10) := by
      unfold unpack6H
      rw [if_pos h12]
    rw [hu]
    simp only [pyBind_pure]
    rw [if_pos hgate]
    rfl
  · intro packet name rtype fuel L h12 hqd hflag hL
    unfold extract_mdns_answer
    have hu : unpack6H packet = pure (readU16 packet 0, readU16 packet 2, readU16 packet 4,
        readU16 packet 6, readU16 packet 8, readU16 packet 10) := by
      unfold unpack6H
      rw [if_pos h12]
    rw [hu]
    simp only [pyBind_pure]
    rw [if_neg (by
      intro hor
      rcases hor with h1 | h2
      · exact h1 hqd
      · exact hflag h2)]
    rw [extractGo_answerList fuel packet name rtype _ 12 L hL]
    cases hfind : L.find? (answerMatches name rtype) with
    | none => rfl
    | some a =>
      apply catchStructErr_of_no_struct
      apply pyBind_ne_throw
      · exact decode_answer_data_no_struct fuel packet a.doff a.dlen a.rtype
      · intro s; exact pure_ne_throw _ _

/-- C4 witness: the second part of the theorem at the concrete packet,
yielding 192.168.1.10. -/
theorem C4_extract_witness :
    (12 ≤ exAnswerPacket.length ∧ readU16 exAnswerPacket 4 = 0 ∧
      readU16 exAnswerPacket 2 &&& FLAG_RESPONSE ≠ 0 ∧
      answerList 8 exAnswerPacket (readU16 exAnswerPacket 6) 12
        = pure [⟨exDevLocal, 1, 33, 4⟩]) ∧
    extract_mdns_answer 8 exAnswerPacket exDevLocal RECORD_A
      = pure (some [49, 57, 50, 46, 49, 54, 56, 46, 49, 46, 49, 48]) := by
  refine ⟨by decide, ?_⟩
  have h := C4_extract_gate_and_first_match.2 exAnswerPacket exDevLocal RECORD_A 8
    [⟨exDevLocal, 1, 33, 4⟩] (by decide) (by decide) (by decide) (by decide)
  rw [h]
  decide

/-- The question encoder produces name bytes, type field and the constant
class field (class-IN with the unicast-response bit, 0x8001). -/
theorem encode_question_ok (name : Str) (rtype : Nat)
    (hn : ∀ l ∈ pySplit 46 name, l.length ≤ 255) (ht : rtype < 65536) :
    encode_question name rtype
      = pure (encodeNamePure name ++ u16be rtype ++ u16be (CLASS_IN ||| CLASS_UNICAST_REQ)) := by
  unfold encode_question
  rw [encode_name_ok _ hn]
  simp only [pyBind_pure]
  rw [if_pos ht]

theorem encodeQuestions_ok (qs : List (Str × Nat))
    (h : ∀ q ∈ qs, (∀ l ∈ pySplit 46 q.1, l.length ≤ 255) ∧ q.2 < 65536) :
    encodeQuestions qs = pure ((qs.map (fun q =>
      encodeNamePure q.1 ++ u16be q.2 ++ u16be (CLASS_IN ||| CLASS_UNICAST_REQ))).flatten) := by
  induction qs with
  | nil => rfl
  | cons q qs ih =>
    obtain ⟨hn, ht⟩ := h q (by simp)
    have ih2 := ih (fun x hx => h x (by simp [hx]))
    obtain ⟨n, t⟩ := q
    simp only [encodeQuestions]
    rw [encode_question_ok n t hn ht]
    simp only [pyBind_pure]
    rw [ih2]
    simp only [pyBind_pure, List.map_cons, List.flatten_cons]

/-- C5: the encoded query packet is the 12-byte header (transaction id 0,
flags 0, question count, zero answer/authority/additional counts, all
big-endian uint16) followed by each question as encoded name, type and the
constant class field 0x8001; in particular the single-question query for
the service enumeration name has the header bytes
00 00 00 00 00 01 00 00 00 00 00 00. -/
theorem C5_encode_mdns_layout :
    (∀ qs : List (Str × Nat),
      qs.length < 65536 →
      (∀ q ∈ qs, (∀ l ∈ pySplit 46 q.1, l.length ≤ 255) ∧ q.2 < 65536) →
      encode_mdns qs = pure (u16be 0 ++ u16be 0 ++ u16be qs.length ++
        u16be 0 ++ u16be 0 ++ u16be 0 ++
        (qs.map (fun q =>
          encodeNamePure q.1 ++ u16be q.2 ++ u16be (CLASS_IN ||| CLASS_UNICAST_REQ))).flatten))
    ∧ pyBind (encode_mdns [(exServicesName, RECORD_PTR)]) (fun b => pure (b.take 12))
        = pure [0, 0, 0, 0, 0, 1, 0, 0, 0, 0, 0, 0] := by
  constructor
  · intro qs hlen h
    unfold encode_mdns
    rw [if_pos hlen, encodeQuestions_ok qs h]
    rfl
  · decide

/-- C5 witness: the layout theorem applied to the single-question list. -/
theorem C5_encode_witness :
    ((([(exServicesName, RECORD_PTR)] : List (Str × Nat)).length < 65536) ∧
      (∀ q ∈ ([(exServicesName, RECORD_PTR)] : List (Str × Nat)),
        (∀ l ∈ pySplit 46 q.1, l.length ≤ 255) ∧ q.2 < 65536)) ∧
    encode_mdns [(exServicesName, RECORD_PTR)]
      = pure (u16be 0 ++ u16be 0 ++ u16be 1 ++ u16be 0 ++ u16be 0 ++ u16be 0 ++
          (([(exServicesName, RECORD_PTR)] : List (Str × Nat)).map (fun q =>
            encodeNamePure q.1 ++ u16be q.2 ++
              u16be (CLASS_IN ||| CLASS_UNICAST_REQ))).flatten) := by
  refine ⟨⟨by decide, by decide⟩, ?_⟩
  have h := C5_encode_mdns_layout.1 [(exServicesName, RECORD_PTR)] (by decide) (by decide)
  simpa using h

/-- Parsing integers: on a nonempty all-digit string, `int` returns the
decimal value. -/
theorem pyInt_digits (s : Str) (h1 : s ≠ []) (h2 : ∀ c ∈ s, 48 ≤ c ∧ c ≤ 57) :
    pyInt s = pure (digitsVal s) := by
  unfold pyInt
  rw [if_pos]
  exact ⟨h1, by simpa [List.all_eq_true] using h2⟩

/-- from_uri on a two-component string: the scheme dispatch with the
default baud and port. -/
theorem from_uri_two_components (s scheme address : Str) (baud port : Int)
    (is_tcp : Bool) (hs : pySplit 58 s = [scheme, address]) :
    from_uri (PyObj.str s) baud port is_tcp =
      (if scheme = strTty then pure (PyObj.scpi (SCPIObj.serialSCPI address baud))
       else if scheme = strUdp ∨ scheme = strTcp ∨ scheme = strIp then
         pure (PyObj.scpi (SCPIObj.socketSCPI (stripSlashes address) port
           (if scheme = strIp then is_tcp else decide (scheme = strTcp))))
       else pyThrow PyErr.exception) := by
  rw [show from_uri (PyObj.str s) baud port is_tcp = from_uri_str s baud port is_tcp from rfl]
  unfold from_uri_str
  rw [hs]
  simp [argsTruthy]

/-- from_uri on a three-component string whose third component is a
nonempty digit string: the scheme dispatch with the parsed parameter. -/
theorem from_uri_three_components (s scheme address args0 : Str) (baud port : Int)
    (is_tcp : Bool) (hs : pySplit 58 s = [scheme, address, args0])
    (hne : args0 ≠ []) (hdig : ∀ c ∈ args0, 48 ≤ c ∧ c ≤ 57) :
    from_uri (PyObj.str s) baud port is_tcp =
      (if scheme = strTty then
         pure (PyObj.scpi (SCPIObj.serialSCPI address (digitsVal args0)))
       else if scheme = strUdp ∨ scheme = strTcp ∨ scheme = strIp then
         pure (PyObj.scpi (SCPIObj.socketSCPI (stripSlashes address) (digitsVal args0)
           (if scheme = strIp then is_tcp else decide (scheme = strTcp))))
       else pyThrow PyErr.exception) := by
  rw [show from_uri (PyObj.str s) baud port is_tcp = from_uri_str s baud port is_tcp from rfl]
  unfold from_uri_str
  rw [hs]
  obtain ⟨a0, args1, rfl⟩ := List.exists_cons_of_ne_nil hne
  have hint := pyInt_digits (a0 :: args1) (by simp) hdig
  simp [argsTruthy, hint]

/-- C6 (amended): for every address without a colon, from_uri maps the
recognised schemes to their backends: tty to a serial backend with the
default or parsed baud, tcp to a TCP socket, udp to a UDP socket, ip to a
socket whose kind follows the is_tcp argument, with the optional numeric
third component overriding baud or port and the leading double slash
stripped from socket addresses; every other scheme (vxi included) raises
the fatal configuration exception. -/
theorem C6_from_uri_scheme_table (address : Str) (baud port : Int) (is_tcp : Bool)
    (haddr : 58 ∉ address) :
    (from_uri (PyObj.str (strTty ++ (58 :: address))) baud port is_tcp
        = pure (PyObj.scpi (SCPIObj.serialSCPI address baud)))
    ∧ (from_uri (PyObj.str (strTcp ++ (58 :: address))) baud port is_tcp
        = pure (PyObj.scpi (SCPIObj.socketSCPI (stripSlashes address) port true)))
    ∧ (from_uri (PyObj.str (strUdp ++ (58 :: address))) baud port is_tcp
        = pure (PyObj.scpi (SCPIObj.socketSCPI (stripSlashes address) port false)))
    ∧ (from_uri (PyObj.str (strIp ++ (58 :: address))) baud port is_tcp
        = pure (PyObj.scpi (SCPIObj.socketSCPI (stripSlashes address) port is_tcp)))
    ∧ (∀ args : Str, args ≠ [] → (∀ c ∈ args, 48 ≤ c ∧ c ≤ 57) →
        from_uri (PyObj.str (strTty ++ (58 :: (address ++ (58 :: args))))) baud port is_tcp
          = pure (PyObj.scpi (SCPIObj.serialSCPI address (digitsVal args)))
        ∧ from_uri (PyObj.str (strTcp ++ (58 :: (address ++ (58 :: args))))) baud port is_tcp
          = pure (PyObj.scpi (SCPIObj.socketSCPI (stripSlashes address) (digitsVal args) true)))
    ∧ (∀ scheme : Str, 58 ∉ scheme →
        scheme ≠ strTty → scheme ≠ strTcp → scheme ≠ strUdp → scheme ≠ strIp →
        from_uri (PyObj.str (scheme ++ (58 :: address))) baud port is_tcp
          = pyThrow PyErr.exception) := by
  have hsp : ∀ sch : Str, 58 ∉ sch →
      pySplit 58 (sch ++ (58 :: address)) = [sch, address] := by
    intro sch hs
    rw [pySplit_append 58 sch address hs, pySplit_single 58 address haddr]
  refine ⟨?_, ?_, ?_, ?_, ?_, ?_⟩
  · rw [from_uri_two_components _ strTty address baud port is_tcp (hsp strTty (by decide)),
      if_pos rfl]
  · rw [from_uri_two_components _ strTcp address baud port is_tcp (hsp strTcp (by decide)),
      if_neg (by decide), if_pos (by decide), if_neg (by decide),
      show decide (strTcp = strTcp) = true from by decide]
  · rw [from_uri_two_components _ strUdp address baud port is_tcp (hsp strUdp (by decide)),
      if_neg (by decide), if_pos (by decide), if_neg (by decide),
      show decide (strUdp = strTcp) = false from by decide]
  · rw [from_uri_two_components _ strIp address baud port is_tcp (hsp strIp (by decide)),
      if_neg (by decide), if_pos (by decide), if_pos rfl]
  · intro args hne hdig
    have hnodig : (58 : Nat) ∉ args := by
      intro hmem
      have := hdig 58 hmem
      omega
    have hsp3 : ∀ sch : Str, 58 ∉ sch →
        pySplit 58 (sch ++ (58 :: (address ++ (58 :: args)))) = [sch, address, args] := by
      intro sch hs
      rw [pySplit_append 58 sch _ hs, pySplit_append 58 address args haddr,
        pySplit_single 58 args hnodig]
    constructor
    · rw [from_uri_three_components _ strTty address args baud port is_tcp
        (hsp3 strTty (by decide)) hne hdig, if_pos rfl]
    · rw [from_uri_three_components _ strTcp address args baud port is_tcp
        (hsp3 strTcp (by decide)) hne hdig,
        if_neg (by decide), if_pos (by decide), if_neg (by decide),
        show decide (strTcp = strTcp) = true from by decide]
  · intro scheme hs h1 h2 h3 h4
    rw [from_uri_two_components _ scheme address baud port is_tcp (hsp scheme hs),
      if_neg h1, if_neg (by
        intro hor
        rcases hor with h | h | h
        · exact h3 h
        · exact h2 h
        · exact h4 h)]

/-- C6: contrary to the claim, the scheme vxi does not construct an
instrument-bus backend: from_uri raises the unrecognised-scheme exception
on vxi:host. -/
theorem C6_counterexample_vxi_raises :
    from_uri (PyObj.str exVxiUri) 9600 5025 true = pyThrow PyErr.exception := by
  decide

/-- C6 witness: the tcp conjunct of the scheme-table theorem at tcp:host. -/
theorem C6_from_uri_witness :
    (58 ∉ exHost) ∧
    from_uri (PyObj.str (strTcp ++ (58 :: exHost))) 9600 5025 true
      = pure (PyObj.scpi (SCPIObj.socketSCPI (stripSlashes exHost) 5025 true)) :=
  ⟨by decide, (C6_from_uri_scheme_table exHost 9600 5025 true (by decide)).2.1⟩

/-- C10: any non-string argument is returned unchanged by from_uri, with no
scheme validation and no backend construction. -/
theorem C10_from_uri_passthrough (v : PyObj) (baud port : Int) (is_tcp : Bool)
    (h : ∀ s : Str, v ≠ PyObj.str s) :
    from_uri v baud port is_tcp = pure v := by
  cases v with
  | str s => exact absurd rfl (h s)
  | scpi b => rfl
  | other t => rfl

/-- C10 witness: a non-string object passes through. -/
theorem C10_passthrough_witness :
    (∀ s : Str, PyObj.other 7 ≠ PyObj.str s) ∧
    from_uri (PyObj.other 7) 9600 5025 true = pure (PyObj.other 7) :=
  ⟨fun _ h => PyObj.noConfusion h,
    C10_from_uri_passthrough (PyObj.other 7) 9600 5025 true
      (fun _ h => PyObj.noConfusion h)⟩

theorem exLoop_cycle : ∀ (fuel : Nat) (acc : List Str),
    decode_name_loop exLoopBuffer fuel 0 acc true 6 = pyDiverge ∧
    decode_name_loop exLoopBuffer fuel 4 acc true 6 = pyDiverge := by
  intro fuel
  induction fuel with
  | zero => intro acc; exact ⟨rfl, rfl⟩
  | succ f ih =>
    intro acc
    constructor
    · have hstep : decode_name_loop exLoopBuffer (f + 1) 0 acc true 6
          = decode_name_loop exLoopBuffer f 4 (acc ++ [[97, 98, 99]]) true 6 := rfl
      rw [hstep]
      exact (ih (acc ++ [[97, 98, 99]])).2
    · have hstep : decode_name_loop exLoopBuffer (f + 1) 4 acc true 6
          = decode_name_loop exLoopBuffer f 0 acc true 6 := rfl
      rw [hstep]
      exact (ih acc).1

theorem exLoop_diverges : decodeDiverges exLoopBuffer 0 := by
  intro fuel
  match fuel with
  | 0 => rfl
  | 1 => rfl
  | 2 => rfl
  | f + 3 =>
    have hstep : decode_name f.succ.succ.succ exLoopBuffer 0
        = decode_name_loop exLoopBuffer (f + 1) 0 [[97, 98, 99]] true 6 := rfl
    rw [hstep]
    exact (exLoop_cycle (f + 1) [[97, 98, 99]]).1

/-- C7: the strictly-less pointer invariant of the specification does NOT
make decode_name terminate: the concrete buffer exLoopBuffer satisfies the
invariant, yet decoding from offset 0 runs forever. -/
theorem C7_counterexample_invariant_insufficient :
    ptrTargetsBelow exLoopBuffer ∧ decodeDiverges exLoopBuffer 0 :=
  ⟨by decide, exLoop_diverges⟩

/-- An offset at or past the end of the buffer makes the loop raise
IndexError with one unit of fuel: a terminating outcome. -/
theorem decode_loop_oob (buffer : Bytes) (offset : Nat) (hout : buffer.length ≤ offset)
    (acc : List Str) (j : Bool) (eo : Nat) :
    decode_name_loop buffer 1 offset acc j eo = pyThrow PyErr.indexError := by
  simp only [decode_name_loop]
  unfold pyIndex
  rw [List.get?_eq_none.2 hout]
  rfl

/-- In-bounds reads agree with the defaulted read used by the invariants. -/
theorem get?_eq_getD (buffer : Bytes) (offset : Nat) (hin : offset < buffer.length) :
    buffer.get? offset = some (buffer.getD offset 0) := by
  rw [List.getD_eq_getD_get?]
  cases hg : buffer.get? offset with
  | none => exact absurd (List.get?_eq_none.1 hg) (by omega)
  | some b => rfl

/-- Label walks that reach the end marker, the end of the buffer, or a
decode error without meeting a pointer always terminate. -/
theorem decode_loop_ptrFree_terminates (buffer : Bytes) :
    ∀ (n offset : Nat), buffer.length - offset ≤ n →
    ptrFreeWalk buffer offset = true →
    ∀ (acc : List Str) (j : Bool) (eo : Nat),
    ∃ (fuel : Nat) (r : Except PyErr (Str × Nat)),
      decode_name_loop buffer fuel offset acc j eo = some r := by
  intro n
  induction n with
  | zero =>
    intro offset hle _ acc j eo
    exact ⟨1, Except.error PyErr.indexError, decode_loop_oob buffer offset (by omega) acc j eo⟩
  | succ n ih =>
    intro offset hle hpf acc j eo
    by_cases hin : offset < buffer.length
    · have hidx : pyIndex buffer offset = pure (buffer.getD offset 0) := by
        unfold pyIndex
        rw [get?_eq_getD buffer offset hin]
      rw [ptrFreeWalk] at hpf
      rw [dif_pos hin] at hpf
      by_cases h0 : buffer.getD offset 0 = 0
      · refine ⟨1, Except.ok (List.intercalate [46] acc, if j then eo else offset + 1), ?_⟩
        simp only [decode_name_loop]
        rw [hidx]
        simp only [pyBind_pure]
        rw [if_pos h0]
        rfl
      · rw [if_neg h0] at hpf
        by_cases hptr : buffer.getD offset 0 &&& 0xC0 = 0xC0
        · rw [if_pos hptr] at hpf
          exact absurd hpf (by simp)
        · rw [if_neg hptr] at hpf
          cases hdec : utf8Decode (pySlice buffer (offset + 1)
              (offset + 1 + buffer.getD offset 0)) with
          | none =>
            refine ⟨1, Except.error PyErr.unicodeDecodeError, ?_⟩
            simp only [decode_name_loop]
            rw [hidx]
            simp only [pyBind_pure]
            rw [if_neg h0, if_neg hptr, hdec]
            rfl
          | some s =>
            obtain ⟨fuel, r, hr⟩ := ih (offset + 1 + buffer.getD offset 0) (by omega) hpf
              (acc ++ [s]) j eo
            refine ⟨fuel + 1, r, ?_⟩
            simp only [decode_name_loop]
            rw [hidx]
            simp only [pyBind_pure]
            rw [if_neg h0, if_neg hptr, hdec]
            exact hr
    · exact ⟨1, Except.error PyErr.indexError, decode_loop_oob buffer offset (by omega) acc j eo⟩

/-- C7 (amended): the strictly-less pointer invariant alone does not
prevent infinite decoding loops (see the counterexample); termination does
hold for every buffer in which each compression pointer targets a
pointer-free label run, i.e. at most one redirection happens per name, as
the protocol usage described by the specification guarantees. -/
theorem C7_decode_name_terminates (buffer : Bytes)
    (H : ∀ p : Nat, p < buffer.length → buffer.getD p 0 &&& 0xC0 = 0xC0 →
      ptrFreeWalk buffer (((buffer.getD p 0 &&& 0x3F) <<< 8) ||| buffer.getD (p + 1) 0)
        = true) :
    ∀ offset : Nat, ∃ (fuel : Nat) (r : Except PyErr (Str × Nat)),
      decode_name fuel buffer offset = some r := by
  have main : ∀ (n offset : Nat), buffer.length - offset ≤ n →
      ∀ (acc : List Str) (j : Bool) (eo : Nat),
      ∃ (fuel : Nat) (r : Except PyErr (Str × Nat)),
        decode_name_loop buffer fuel offset acc j eo = some r := by
    intro n
    induction n with
    | zero =>
      intro offset hle acc j eo
      exact ⟨1, Except.error PyErr.indexError,
        decode_loop_oob buffer offset (by omega) acc j eo⟩
    | succ n ih =>
      intro offset hle acc j eo
      by_cases hin : offset < buffer.length
      · have hidx : pyIndex buffer offset = pure (buffer.getD offset 0) := by
          unfold pyIndex
          rw [get?_eq_getD buffer offset hin]
        by_cases h0 : buffer.getD offset 0 = 0
        · refine ⟨1, Except.ok (List.intercalate [46] acc, if j then eo else offset + 1), ?_⟩
          simp only [decode_name_loop]
          rw [hidx]
          simp only [pyBind_pure]
          rw [if_pos h0]
          rfl
        · by_cases hptr : buffer.getD offset 0 &&& 0xC0 = 0xC0
          · -- a pointer: one jump into a pointer-free run, which terminates
            by_cases hin2 : offset + 1 < buffer.length
            · have hidx2 : pyIndex buffer (offset + 1) = pure (buffer.getD (offset + 1) 0) := by
                unfold pyIndex
                rw [get?_eq_getD buffer (offset + 1) hin2]
              have hpf := H offset hin hptr
              obtain ⟨fuel, r, hr⟩ := decode_loop_ptrFree_terminates buffer
                (buffer.length - (((buffer.getD offset 0 &&& 0x3F) <<< 8) |||
                  buffer.getD (offset + 1) 0))
                (((buffer.getD offset 0 &&& 0x3F) <<< 8) ||| buffer.getD (offset + 1) 0)
                le_rfl hpf acc true (if j then eo else offset + 1 + 1)
              refine ⟨fuel + 1, r, ?_⟩
              simp only [decode_name_loop]
              rw [hidx]
              simp only [pyBind_pure]
              rw [if_neg h0, if_pos hptr, hidx2]
              simp only [pyBind_pure]
              exact hr
            · refine ⟨1, Except.error PyErr.indexError, ?_⟩
              simp only [decode_name_loop]
              rw [hidx]
              simp only [pyBind_pure]
              rw [if_neg h0, if_pos hptr]
              unfold pyIndex
              rw [List.get?_eq_none.2 (by omega)]
              rfl
          · cases hdec : utf8Decode (pySlice buffer (offset + 1)
                (offset + 1 + buffer.getD offset 0)) with
            | none =>
              refine ⟨1, Except.error PyErr.unicodeDecodeError, ?_⟩
              simp only [decode_name_loop]
              rw [hidx]
              simp only [pyBind_pure]
              rw [if_neg h0, if_neg hptr, hdec]
              rfl
            | some s =>
              obtain ⟨fuel, r, hr⟩ := ih (offset + 1 + buffer.getD offset 0) (by omega)
                (acc ++ [s]) j eo
              refine ⟨fuel + 1, r, ?_⟩
              simp only [decode_name_loop]
              rw [hidx]
              simp only [pyBind_pure]
              rw [if_neg h0, if_neg hptr, hdec]
              exact hr
      · exact ⟨1, Except.error PyErr.indexError,
          decode_loop_oob buffer offset (by omega) acc j eo⟩
  intro offset
  exact main (buffer.length - offset) offset le_rfl [] false 0

/-- C7 witness: the one-byte buffer holding just the end marker has no
pointers, so the hypothesis holds vacuously and decoding terminates. -/
theorem C7_terminates_witness :
    (∀ p : Nat, p < ([0] : Bytes).length → ([0] : Bytes).getD p 0 &&& 0xC0 = 0xC0 →
      ptrFreeWalk [0] (((([0] : Bytes).getD p 0 &&& 0x3F) <<< 8) |||
        ([0] : Bytes).getD (p + 1) 0) = true) ∧
    ∃ (fuel : Nat) (r : Except PyErr (Str × Nat)), decode_name fuel [0] 0 = some r :=
  ⟨by intro p hp hb; simp at hp; subst hp; simp at hb,
    C7_decode_name_terminates [0]
      (by intro p hp hb; simp at hp; subst hp; simp at hb) 0⟩

/-- Loop invariant for the result limit: if the accumulated results respect
the limit, so does the final result list. -/
theorem listenGo_length_le (name : Str) (rtype fuel : Nat) (timeout start : ℚ)
    (limit : Nat) :
    ∀ (events : List (ℚ × Bytes)) (now : ℚ) (results r : List Str) (t : ℚ),
    results.length ≤ limit →
    listenGo name rtype fuel timeout start limit events now results = pure (r, t) →
    r.length ≤ limit := by
  intro events
  induction events with
  | nil =>
    intro now results r t hres hrun
    simp only [listenGo] at hrun
    by_cases hg : timeout - (now - start) ≤ 0 ∨ ¬ results.length < limit
    · rw [if_pos hg] at hrun
      have h2 := pure_inj hrun
      rw [Prod.mk.injEq] at h2
      rw [← h2.1]
      exact hres
    · rw [if_neg hg] at hrun
      have h2 := pure_inj hrun
      rw [Prod.mk.injEq] at h2
      rw [← h2.1]
      exact hres
  | cons e rest ih =>
    intro now results r t hres hrun
    obtain ⟨ta, data⟩ := e
    simp only [listenGo] at hrun
    by_cases hg : timeout - (now - start) ≤ 0 ∨ ¬ results.length < limit
    · rw [if_pos hg] at hrun
      have h2 := pure_inj hrun
      rw [Prod.mk.injEq] at h2
      rw [← h2.1]
      exact hres
    · rw [if_neg hg] at hrun
      have hlt : results.length < limit := by
        rcases not_or.1 hg with ⟨-, h2⟩
        exact not_not.1 h2
      by_cases harr : ta ≤ now + (timeout - (now - start))
      · rw [if_pos harr] at hrun
        rw [pyBind_eq_pure_iff] at hrun
        obtain ⟨res, -, hcont⟩ := hrun
        refine ih (max now ta) _ r t ?_ hcont
        cases res with
        | none => exact hres
        | some s =>
          by_cases hs : s ≠ []
          · simp only [if_pos hs]
            rw [List.length_append]
            simpa using hlt
          · simp only [if_neg hs]
            exact hres
      · rw [if_neg harr] at hrun
        have h2 := pure_inj hrun
        rw [Prod.mk.injEq] at h2
        rw [← h2.1]
        exact hres

/-- C8: the mDNS collect loop never returns more than limit results: on any
arrival schedule, if the loop returns a result list, its length is at most
the configured limit. -/
theorem C8_listen_results_bounded (name : Str) (rtype fuel : Nat) (timeout : ℚ)
    (limit : Nat) (events : List (ℚ × Bytes)) (start : ℚ) (r : List Str) (t : ℚ)
    (h : listen_for name rtype fuel timeout limit events start = pure (r, t)) :
    r.length ≤ limit :=
  listenGo_length_le name rtype fuel timeout start limit events start [] r t
    (by simp) h

/-- C8 witness: the loop on an empty schedule returns no results, within
the limit. -/
theorem C8_listen_witness :
    listen_for strStar RECORD_A 1 1 1 [] 0 = pure (([], 1) : List Str × ℚ) ∧
    ([] : List Str).length ≤ 1 := by
  have hrun : listen_for strStar RECORD_A 1 1 1 [] 0 = pure (([], 1) : List Str × ℚ) := by
    unfold listen_for listenGo
    norm_num
  exact ⟨hrun, C8_listen_results_bounded strStar RECORD_A 1 1 1 [] 0 [] 1 hrun⟩

/-- Loop invariant for the deadline: the clock never passes start + timeout
because the per-receive timeout is always the remaining budget. -/
theorem listenGo_time_le (name : Str) (rtype fuel : Nat) (timeout start : ℚ)
    (limit : Nat) :
    ∀ (events : List (ℚ × Bytes)) (now : ℚ) (results r : List Str) (t : ℚ),
    now ≤ start + timeout →
    listenGo name rtype fuel timeout start limit events now results = pure (r, t) →
    t ≤ start + timeout := by
  intro events
  induction events with
  | nil =>
    intro now results r t hnow hrun
    simp only [listenGo] at hrun
    by_cases hg : timeout - (now - start) ≤ 0 ∨ ¬ results.length < limit
    · rw [if_pos hg] at hrun
      have h2 := pure_inj hrun
      rw [Prod.mk.injEq] at h2
      rw [← h2.2]
      exact hnow
    · rw [if_neg hg] at hrun
      have h2 := pure_inj hrun
      rw [Prod.mk.injEq] at h2
      rw [← h2.2]
      linarith
  | cons e rest ih =>
    intro now results r t hnow hrun
    obtain ⟨ta, data⟩ := e
    simp only [listenGo] at hrun
    by_cases hg : timeout - (now - start) ≤ 0 ∨ ¬ results.length < limit
    · rw [if_pos hg] at hrun
      have h2 := pure_inj hrun
      rw [Prod.mk.injEq] at h2
      rw [← h2.2]
      exact hnow
    · rw [if_neg hg] at hrun
      by_cases harr : ta ≤ now + (timeout - (now - start))
      · rw [if_pos harr] at hrun
        rw [pyBind_eq_pure_iff] at hrun
        obtain ⟨res, -, hcont⟩ := hrun
        refine ih (max now ta) _ r t ?_ hcont
        apply max_le hnow
        linarith
      · rw [if_neg harr] at hrun
        have h2 := pure_inj hrun
        rw [Prod.mk.injEq] at h2
        rw [← h2.2]
        linarith

/-- C9 (amended): the mDNS collect loop recomputes its per-receive socket
timeout as the remaining budget every iteration, so on any arrival schedule
its total wall-clock time never exceeds the configured timeout.  The
broadcast scan does not have this property: see the counterexample. -/
theorem C9_mdns_listen_wait_bounded (name : Str) (rtype fuel : Nat) (timeout : ℚ)
    (limit : Nat) (events : List (ℚ × Bytes)) (start : ℚ) (r : List Str) (t : ℚ)
    (htimeout : 0 ≤ timeout)
    (h : listen_for name rtype fuel timeout limit events start = pure (r, t)) :
    t - start ≤ timeout := by
  have h2 := listenGo_time_le name rtype fuel timeout start limit events start [] r t
    (by linarith) h
  linarith

/-- C9: contrary to the claim, the broadcast receive loop uses the full
configured timeout for EVERY receive, so with replies arriving every time
unit it finishes at time 4, exceeding the configured timeout 1. -/
theorem C9_counterexample_broadcast_exceeds_timeout :
    (broadcast_search [] 0 1 exBroadcastEvents 0).2 - 0 > 1 := by
  simp [broadcast_search, broadcastGo, exBroadcastEvents, max_def]
  norm_num

/-- C9 witness: the bound theorem on the empty schedule with timeout 1. -/
theorem C9_listen_time_witness :
    (0 ≤ (1 : ℚ)) ∧
    listen_for strStar RECORD_A 1 1 1 [] 0 = pure (([], 1) : List Str × ℚ) ∧
    (1 : ℚ) - 0 ≤ 1 := by
  have hrun : listen_for strStar RECORD_A 1 1 1 [] 0 = pure (([], 1) : List Str × ℚ) := by
    unfold listen_for listenGo
    norm_num
  exact ⟨by norm_num,  hrun,
    C9_mdns_listen_wait_bounded strStar RECORD_A 1 1 1 [] 0 [] 1 (by norm_num) hrun⟩
